import Mathlib

/-!
Shallow embedding of src/crapremoval.py.

The program is a disk-hygiene script with a stat probe (file or directory size
and age), a per-directory cleanup selection (type filter, keep-N or
older-than-D retention, ignore substrings), a launch-counter throttle, a
reclaimed-size report, and a watched-directory diff scanner.  Filesystem
entries are modelled by the data the Python code observes about them; external
tool output (du, find) is modelled by the values those tools would print.
Machine-level details kept faithful to the source: the find output is split on
newlines (leaving a trailing empty string), sorted as raw strings in reverse
order, and entry 1 of the sorted list is parsed as an integer; Python string
sort and list sort are stable, modelled by a stable insertion sort; dict
construction keeps the first-insertion key order and the last value per key;
exceptions other than FileNotFoundError and CalledProcessError escape the
probe, modelled by Except.
-/

namespace Crapremoval

/-- Python string comparison on code points, strict less-than, on char lists. -/
def strLtL : List Char → List Char → Bool
  | [], [] => false
  | [], _ :: _ => true
  | _ :: _, [] => false
  | a :: as, b :: bs =>
    if a.toNat < b.toNat then true
    else if b.toNat < a.toNat then false
    else strLtL as bs

/-- Stable insertion used to model Python list.sort (timsort is stable; a
stable sort for a reflexive total comparator is unique, and equals insertion
sort with that comparator). -/
def pyInsert (le : α → α → Bool) (x : α) : List α → List α
  | [] => [x]
  | y :: ys => if le x y then x :: y :: ys else y :: pyInsert le x ys

/-- Python list.sort with comparator le (le true keeps or puts its first
argument first; ties keep original order). -/
def pySort (le : α → α → Bool) : List α → List α
  | [] => []
  | x :: xs => pyInsert le x (pySort le xs)

/-- Decimal digit character. -/
def digitChar (n : Nat) : Char := Char.ofNat (48 + n)

/-- Fuel-bounded decimal digits of a natural number. -/
def natCharsAux : Nat → Nat → List Char
  | 0, _ => []
  | fuel + 1, n =>
    if n < 10 then [digitChar n]
    else natCharsAux fuel (n / 10) ++ [digitChar (n % 10)]

/-- Decimal representation of a natural number, as Python str would print. -/
def natChars (n : Nat) : List Char := natCharsAux (n + 1) n

/-- str of a natural number. -/
def natToStr (n : Nat) : String := String.mk (natChars n)

/-- Value of a decimal digit string. -/
def digitsToNat : List Char → Nat → Nat
  | [], acc => acc
  | c :: cs, acc => digitsToNat cs (acc * 10 + (c.toNat - 48))

/-- Python int(s) on the strings that arise in this program: a nonempty
all-digit string parses, anything else (notably the empty string) raises
ValueError, modelled by none. -/
def pyIntL (cs : List Char) : Option Int :=
  if cs ≠ [] ∧ cs.all (fun c => c.isDigit) then some (digitsToNat cs 0 : Nat) else none

/-- The characters before the first dot: component 0 of s.split on a dot. -/
def beforeDot : List Char → List Char
  | [] => []
  | c :: cs => if c = '.' then [] else c :: beforeDot cs

/-- Python substring containment of needle in hay. -/
def startsWithL : List Char → List Char → Bool
  | [], _ => true
  | _ :: _, [] => false
  | a :: as, b :: bs => if a = b then startsWithL as bs else false

/-- needle in hay, Python in operator on strings. -/
def subIn (needle : List Char) : List Char → Bool
  | [] => needle.isEmpty
  | c :: t => startsWithL needle (c :: t) || subIn needle t

/-- A file inside a directory as find -type f -printf prints it: integral
seconds of the mtime, the fractional-second digits, and the printed path. -/
structure DirFile where
  mtimeSec : Nat
  mtimeFrac : List Char
  relPath : List Char
deriving DecidableEq

/-- One line of the find output for a file: seconds, a dot, fraction, a plus,
a space, the path. -/
def findLine (f : DirFile) : List Char :=
  natChars f.mtimeSec ++ '.' :: (f.mtimeFrac ++ '+' :: ' ' :: f.relPath)

/-- A filesystem entry as the Python code observes it at probe time: a plain
file with its stat values, a directory with the byte total du would print
(none when du fails) and the files find would enumerate, or a path that
vanished between listing and probing (is_file is False and both external
tools fail). -/
inductive Entry
  | file (path : String) (st_size : Int) (st_mtime : Int)
  | dir (path : String) (duSize : Option Int) (files : List DirFile)
  | vanished (path : String)
deriving DecidableEq

/-- String representation of the path of an entry. -/
def Entry.path : Entry → String
  | .file p _ _ => p
  | .dir p _ _ => p
  | .vanished p => p

/-- Path.is_file of the entry. -/
def Entry.is_file : Entry → Bool
  | .file _ _ _ => true
  | _ => false

/-- The stattype argument of the stat probe. -/
inductive StatType
  | size
  | age
deriving DecidableEq

/-- Python exceptions that escape the modelled code. -/
inductive PyErr
  | valueError
  | typeError
deriving DecidableEq

instance {ε α : Type} [DecidableEq ε] [DecidableEq α] : DecidableEq (Except ε α)
  | .ok a, .ok b =>
    if h : a = b then isTrue (by rw [h]) else isFalse (fun hc => by cases hc; exact h rfl)
  | .error a, .error b =>
    if h : a = b then isTrue (by rw [h]) else isFalse (fun hc => by cases hc; exact h rfl)
  | .ok _, .error _ => isFalse (fun hc => by cases hc)
  | .error _, .ok _ => isFalse (fun hc => by cases hc)

/-- One loop iteration of the probe: the try body for one path.  ok none means
the append was skipped (FileNotFoundError or CalledProcessError caught), ok
some is an appended pair, error is an exception that escapes the except
clause.  For a directory in age mode the find output lines are split on
newline (so a trailing empty string is present), sorted in reverse string
order, and element 1 of the sorted list has its part before the first dot
parsed by int. -/
def probeOne : StatType → Entry → Except PyErr (Option (String × Int))
  | .size, .file p sz _ => .ok (some (p, sz))
  | .age, .file p _ mt => .ok (some (p, mt))
  | _, .vanished _ => .ok none
  | .size, .dir p du _ => .ok (du.map fun n => (p, n))
  | .age, .dir p _ files =>
    let all_dir_files := files.map findLine ++ [[]]
    if 1 < all_dir_files.length then
      let sorted := pySort (fun a b => ! strLtL a b) all_dir_files
      match sorted[1]? with
      | some line =>
        match pyIntL (beforeDot line) with
        | some n => .ok (some (p, n))
        | none => .error .valueError
      | none => .error .valueError
    else .ok none

/-- The probe loop over all paths, in order; an escaping exception aborts the
whole call. -/
def probeMany (t : StatType) : List Entry → Except PyErr (List (String × Int))
  | [] => .ok []
  | e :: es =>
    match probeOne t e with
    | .error err => .error err
    | .ok r =>
      match probeMany t es with
      | .error err => .error err
      | .ok rest =>
        match r with
        | some pair => .ok (pair :: rest)
        | none => .ok rest

/-- The static method add_stat_properties: probe every path, then optionally
sort by the stat value (reverse order by default, stable). -/
def add_stat_properties (filepaths : List Entry) (stattype : StatType)
    (sort : Bool) (sort_reversed : Bool) : Except PyErr (List (String × Int)) :=
  match probeMany stattype filepaths with
  | .error err => .error err
  | .ok result =>
    if sort then
      if sort_reversed then
        .ok (pySort (fun a b => decide (b.2 ≤ a.2)) result)
      else
        .ok (pySort (fun a b => decide (a.2 ≤ b.2)) result)
    else
      .ok result

/-- dict(pairs).get(k): the value of the last pair with key k, none if no
pair has key k. -/
def pyDictGet (l : List (String × Int)) (k : String) : Option Int :=
  l.foldl (fun acc p => if p.1 = k then some p.2 else acc) none

/-- Helper for pyDictKeys: keys in first-insertion order, skipping keys
already seen. -/
def pyDictKeysAux (seen : List String) : List (String × Int) → List String
  | [] => []
  | p :: rest =>
    if seen.contains p.1 then pyDictKeysAux seen rest
    else p.1 :: pyDictKeysAux (p.1 :: seen) rest

/-- dict(pairs).keys(): the keys in first-insertion order. -/
def pyDictKeys (l : List (String × Int)) : List String := pyDictKeysAux [] l

/-- The per-directory cleaning settings, as in the One_path_item dataclass. -/
structure One_path_item where
  path : String
  type_to_del : String
  num_to_keep : Nat
  remove_older : Option Int
  ignore : List String
deriving DecidableEq

/-- The third filter of cleaner on a list of path strings: keep a path iff no
ignore substring occurs in it. -/
def applyIgnore (ignore : List String) (files : List String) : List String :=
  files.filter (fun f => ! ignore.any (fun s => subIn s.data f.data))

/-- The per-target selection of cleaner (the body of the loop over
dirstoclean, up to and excluding the erase call): the type filter, then the
keep-N or older-than-D retention filter through the age probe, then the
ignore filter.  When no retention filter ran, the candidates are still Path
objects and a nonempty ignore list makes the membership test raise TypeError
on the first candidate. -/
def cleanerSelect (now : Int) (item : One_path_item) (dirContents : List Entry) :
    Except PyErr (List String) :=
  let files_to_remove :=
    if item.type_to_del = "f" then dirContents.filter Entry.is_file
    else dirContents
  if 0 < item.num_to_keep then
    match add_stat_properties files_to_remove .age true true with
    | .error err => .error err
    | .ok aged =>
      let sel := if item.num_to_keep < aged.length then aged.drop item.num_to_keep else []
      .ok (applyIgnore item.ignore (pyDictKeys sel))
  else
    match item.remove_older with
    | some days =>
      match add_stat_properties files_to_remove .age true true with
      | .error err => .error err
      | .ok aged =>
        let trashold : Int := now - days * 86400
        let counter := (aged.takeWhile (fun p => decide (trashold ≤ p.2))).length
        let sel := aged.drop counter
        .ok (applyIgnore item.ignore (pyDictKeys sel))
    | none =>
      if item.ignore = [] then
        .ok (files_to_remove.map Entry.path)
      else
        match files_to_remove with
        | [] => .ok []
        | _ :: _ => .error .typeError

/-- str.isdigit of the timer file content (ASCII digits). -/
def pyIsDigitStr (s : String) : Bool := ! s.data.isEmpty && s.data.all (fun c => c.isDigit)

/-- int of an all-digit string. -/
def pyStrToNat (s : String) : Nat := digitsToNat s.data 0

/-- The throttle check at the top of cleaner: given the timer file content
(none when the file does not exist), return the content written back and
whether the run proceeds to measuring, deleting and reporting (false means
the early return: no measurement, no deletion, no clean report). -/
def cleanerThrottle (clean_each_x_launch : Nat) : Option String → String × Bool
  | some s =>
    if pyIsDigitStr s ∧ 1 < pyStrToNat s then (natToStr (pyStrToNat s - 1), false)
    else (natToStr clean_each_x_launch, true)
  | none => (natToStr clean_each_x_launch, true)

/-- Consecutive cleaner invocations sharing the persisted timer file: the
list of proceed flags of the first n calls, starting from the given file
content. -/
def cleanerRuns (interval : Nat) : Nat → Option String → List Bool
  | 0, _ => []
  | n + 1, timer =>
    let r := cleanerThrottle interval timer
    r.2 :: cleanerRuns interval n (some r.1)

/-- The result of count_erased_size: the total and the per-position list,
none standing for the dash printed when the path no longer exists. -/
structure CleanSizeReport where
  total : Int
  all_positions : List (String × Option Int)
deriving DecidableEq

/-- The method count_erased_size: re-probe the current sizes of the cleaned
paths (unsorted), then for every saved pair take new minus saved and add it
into the total, or record none when the path has no new size. -/
def count_erased_size (saved_sizes : List (String × Int)) (current : List Entry) :
    Except PyErr CleanSizeReport :=
  match add_stat_properties current .size false true with
  | .error err => .error err
  | .ok new_sizes =>
    let r := saved_sizes.foldl
      (fun (acc : Int × List (String × Option Int)) kv =>
        match pyDictGet new_sizes kv.1 with
        | some item => (acc.1 + (item - kv.2), acc.2 ++ [(kv.1, some (item - kv.2))])
        | none => (acc.1, acc.2 ++ [(kv.1, none)]))
      (0, [])
    .ok ⟨r.1, r.2⟩

/-- One value of the new_content dict built by scan: either the list of new
entries of a watched directory, or the message recorded when the directory
key is missing from the stored file. -/
inductive DiffEntry
  | entries (l : List String)
  | message (s : String)
deriving DecidableEq

/-- The message scan records for a watched directory missing from the stored
snapshot. -/
def newDirMessage : String := "Seems like a new directory, it was not found in a stored file"

/-- Lookup of a key in the parsed snapshot dict. -/
def lookupStored (stored : List (String × List String)) (k : String) : Option (List String) :=
  (stored.find? (fun p => p.1 == k)).map Prod.snd

/-- The diff loop of scan over the watched directories: for every watched
directory key in order, the set difference of its current content against the
stored snapshot when the key is stored (recorded only when nonempty), or the
new-directory message when the key raises KeyError. -/
def scanNewContent (stored : List (String × List String)) :
    List (String × List String) → List (String × DiffEntry)
  | [] => []
  | kv :: rest =>
    match lookupStored stored kv.1 with
    | some prev =>
      let diff := kv.2.filter (fun x => ! prev.contains x)
      if diff.isEmpty then scanNewContent stored rest
      else (kv.1, .entries diff) :: scanNewContent stored rest
    | none => (kv.1, .message newDirMessage) :: scanNewContent stored rest

/-- The concatenation loop of the top-sizes part of scan: probe every watched
directory content (sorted within each directory) and concatenate in watch
order. -/
def scanTopAux : List (List Entry) → Except PyErr (List (String × Int))
  | [] => .ok []
  | d :: ds =>
    match add_stat_properties d .size true true with
    | .error err => .error err
    | .ok l =>
      match scanTopAux ds with
      | .error err => .error err
      | .ok rest => .ok (l ++ rest)

/-- The top-sizes part of scan: the concatenated per-directory records, from
which the first ntopfiles are popped. -/
def scanTopSizes (ntopfiles : Nat) (watchContents : List (List Entry)) :
    Except PyErr (List (String × Int)) :=
  match scanTopAux watchContents with
  | .error err => .error err
  | .ok all => .ok (all.take ntopfiles)

/-- Modelled from the claim wording of C1: the age of a directory is the most
recent modification timestamp among its files, truncated to an integer. -/
def specDirAge (files : List DirFile) : Option Nat := (files.map DirFile.mtimeSec).max?

/-- Modelled from the claim wording of C3: reclaimed is before minus after. -/
def specReclaimed (before after : Int) : Int := before - after

/-- Modelled from the claim wording of C4: the N largest measured entries
across the union of all watched directories, in globally descending size
order. -/
def specTopSizes (ntopfiles : Nat) (measured : List (String × Int)) : List (String × Int) :=
  (pySort (fun a b => decide (b.2 ≤ a.2)) measured).take ntopfiles

/-- Modelled from the claim wording of C7: an ignored entry does not count
toward the keepCount survivors, so the ignore filter runs before the
retention count. -/
def specSelectIgnoredFirst (k : Nat) (ignore : List String)
    (aged : List (String × Int)) : List String :=
  let cand := (pySort (fun a b => decide (b.2 ≤ a.2)) aged).filter
    (fun q => ! ignore.any (fun s => subIn s.data q.1.data))
  if k < cand.length then (cand.drop k).map Prod.fst else []

/-- An entry whose age the probe cannot measure and silently skips: a
vanished entry (both stat and the external tools fail with caught errors) or
a directory containing no files. -/
def ageSkipped : Entry → Bool
  | .vanished _ => true
  | .dir _ _ files => files.isEmpty
  | .file _ _ _ => false

/-- The descending-by-value order the probe sorts by default (as a relation,
for transfer to library sort lemmas). -/
def ageDesc (a b : String × Int) : Prop := b.2 ≤ a.2

instance : DecidableRel ageDesc := fun a b => inferInstanceAs (Decidable (b.2 ≤ a.2))

instance : IsTotal (String × Int) ageDesc := ⟨fun a b => le_total b.2 a.2⟩

instance : IsTrans (String × Int) ageDesc := ⟨fun _ _ _ h1 h2 => le_trans h2 h1⟩

end Crapremoval

namespace Crapremoval

theorem pyInsert_eq_orderedInsert (le : α → α → Bool) (r : α → α → Prop) [DecidableRel r]
    (hle : ∀ a b, le a b = decide (r a b)) (x : α) :
    ∀ l : List α, pyInsert le x l = List.orderedInsert r x l
  | [] => rfl
  | y :: ys => by
    by_cases h : r x y
    · simp [pyInsert, List.orderedInsert, hle, h]
    · simp [pyInsert, List.orderedInsert, hle, h, pyInsert_eq_orderedInsert le r hle x ys]

theorem pySort_eq_insertionSort (le : α → α → Bool) (r : α → α → Prop) [DecidableRel r]
    (hle : ∀ a b, le a b = decide (r a b)) :
    ∀ l : List α, pySort le l = List.insertionSort r l
  | [] => rfl
  | x :: xs => by
    simp [pySort, List.insertionSort, pySort_eq_insertionSort le r hle xs,
      pyInsert_eq_orderedInsert le r hle]

theorem sortAged_eq (l : List (String × Int)) :
    pySort (fun a b => decide (b.2 ≤ a.2)) l = List.insertionSort ageDesc l :=
  pySort_eq_insertionSort (fun a b => decide (b.2 ≤ a.2)) ageDesc (fun _ _ => rfl) l

theorem sortAged_perm (l : List (String × Int)) :
    List.Perm (pySort (fun a b => decide (b.2 ≤ a.2)) l) l := by
  rw [sortAged_eq]
  exact List.perm_insertionSort ageDesc l

theorem sortAged_sorted (l : List (String × Int)) :
    List.Sorted ageDesc (pySort (fun a b => decide (b.2 ≤ a.2)) l) := by
  rw [sortAged_eq]
  exact List.sorted_insertionSort ageDesc l

theorem probeMany_age_files (sz : Int) :
    ∀ files : List (String × Int),
      probeMany .age (files.map fun q => Entry.file q.1 sz q.2) = .ok files
  | [] => rfl
  | q :: qs => by
    have ih := probeMany_age_files sz qs
    simp only [List.map_cons, probeMany, probeOne, ih]

theorem add_stat_age_files (sz : Int) (files : List (String × Int)) :
    add_stat_properties (files.map fun q => Entry.file q.1 sz q.2) .age true true
      = .ok (pySort (fun a b => decide (b.2 ≤ a.2)) files) := by
  simp only [add_stat_properties, probeMany_age_files sz files, if_true]

theorem applyIgnore_nil (files : List String) : applyIgnore [] files = files := by
  simp [applyIgnore]

theorem pyDictKeysAux_eq_map_fst (seen : List String) :
    ∀ l : List (String × Int), (l.map Prod.fst).Nodup → (∀ p ∈ l, p.1 ∉ seen) →
      pyDictKeysAux seen l = l.map Prod.fst
  | [], _, _ => rfl
  | p :: rest, hnd, hseen => by
    have hp : seen.contains p.1 = false := by
      simpa using hseen p (by simp)
    rw [pyDictKeysAux, hp]
    simp only [Bool.false_eq_true, if_false, List.map_cons]
    congr 1
    apply pyDictKeysAux_eq_map_fst
    · exact (List.nodup_cons.mp (by simpa using hnd)).2
    · intro q hq
      simp only [List.mem_cons]
      rintro (h1 | h2)
      · exact (List.nodup_cons.mp (by simpa using hnd)).1 (h1 ▸ List.mem_map_of_mem Prod.fst hq)
      · exact hseen q (List.mem_cons_of_mem p hq) h2

theorem pyDictKeys_eq_map_fst (l : List (String × Int)) (hnd : (l.map Prod.fst).Nodup) :
    pyDictKeys l = l.map Prod.fst :=
  pyDictKeysAux_eq_map_fst [] l hnd (by simp)

theorem mem_pyDictKeysAux (seen : List String) :
    ∀ l : List (String × Int), ∀ k ∈ pyDictKeysAux seen l, k ∈ l.map Prod.fst
  | [], k, hk => by simp [pyDictKeysAux] at hk
  | p :: rest, k, hk => by
    rw [pyDictKeysAux] at hk
    by_cases h : seen.contains p.1
    · rw [if_pos h] at hk
      exact List.mem_cons_of_mem _ (mem_pyDictKeysAux seen rest k hk)
    · rw [if_neg h] at hk
      rcases List.mem_cons.mp hk with rfl | hmem
      · simp
      · exact List.mem_cons_of_mem _ (mem_pyDictKeysAux _ rest k hmem)

theorem drop_length_takeWhile (p : α → Bool) :
    ∀ l : List α, l.drop (l.takeWhile p).length = l.dropWhile p
  | [] => rfl
  | x :: xs => by
    by_cases h : p x
    · simp [List.takeWhile_cons, List.dropWhile_cons, h, drop_length_takeWhile p xs]
    · simp [List.takeWhile_cons, List.dropWhile_cons, h]

theorem sorted_dropWhile_lt (thr : Int) :
    ∀ l : List (String × Int), List.Sorted ageDesc l →
      ∀ u ∈ l.dropWhile (fun q => decide (thr ≤ q.2)), u.2 < thr
  | [], _, u, hu => by simp at hu
  | x :: xs, hs, u, hu => by
    by_cases h : thr ≤ x.2
    · rw [List.dropWhile_cons, if_pos (by simpa using h)] at hu
      exact sorted_dropWhile_lt thr xs hs.of_cons u hu
    · rw [List.dropWhile_cons, if_neg (by simpa using h)] at hu
      rcases List.mem_cons.mp hu with rfl | hmem
      · exact lt_of_not_le h
      · exact lt_of_le_of_lt ((List.sorted_cons.mp hs).1 u hmem) (lt_of_not_le h)

theorem probeOne_age_skipped (e : Entry) (h : ageSkipped e = true) :
    probeOne .age e = .ok none := by
  cases e with
  | file p sz mt => simp [ageSkipped] at h
  | vanished p => rfl
  | dir p du files =>
    cases files with
    | nil => rfl
    | cons f fs => simp [ageSkipped] at h

theorem probeMany_age_filter_skipped :
    ∀ entries : List Entry,
      probeMany .age entries = probeMany .age (entries.filter fun e => ! ageSkipped e)
  | [] => rfl
  | e :: es => by
    by_cases h : ageSkipped e
    · rw [List.filter_cons_of_neg (by simp [h])]
      rw [probeMany, probeOne_age_skipped e h]
      rw [← probeMany_age_filter_skipped es]
      cases hes : probeMany .age es <;> rfl
    · rw [List.filter_cons_of_pos (by simp [h])]
      rw [probeMany, probeMany, ← probeMany_age_filter_skipped es]

theorem probeOne_age_some (e : Entry) (pair : String × Int)
    (h : probeOne .age e = .ok (some pair)) :
    ageSkipped e = false ∧ Entry.path e = pair.1 := by
  cases e with
  | file p sz mt =>
    refine ⟨rfl, ?_⟩
    have h2 : Except.ok (ε := PyErr) (some (p, mt)) = .ok (some pair) := h
    cases h2
    rfl
  | vanished p =>
    have h2 : Except.ok (ε := PyErr) (α := Option (String × Int)) none = .ok (some pair) := h
    cases h2
  | dir p du files =>
    cases files with
    | nil =>
      have h2 : Except.ok (ε := PyErr) (α := Option (String × Int)) none = .ok (some pair) := by
        rw [← h]; rfl
      cases h2
    | cons f fs =>
      refine ⟨by simp [ageSkipped], ?_⟩
      simp only [probeOne] at h
      split at h
      · split at h
        · split at h
          · cases h
            rfl
          · cases h
        · cases h
      · cases h

theorem probeMany_age_mem :
    ∀ entries : List Entry, ∀ out, probeMany .age entries = .ok out →
      ∀ pv ∈ out, ∃ e ∈ entries, ageSkipped e = false ∧ Entry.path e = pv.1
  | [], out, hout, pv, hpv => by
    cases hout
    simp at hpv
  | e :: es, out, hout, pv, hpv => by
    rw [probeMany] at hout
    cases h1 : probeOne .age e with
    | error err => rw [h1] at hout; cases hout
    | ok r =>
      rw [h1] at hout
      cases h2 : probeMany .age es with
      | error err => rw [h2] at hout; cases hout
      | ok rest =>
        rw [h2] at hout
        cases r with
        | none =>
          have hro : rest = out := by cases hout; rfl
          subst hro
          obtain ⟨e2, he2, hsk, hp⟩ := probeMany_age_mem es rest h2 pv hpv
          exact ⟨e2, List.mem_cons_of_mem e he2, hsk, hp⟩
        | some pair =>
          have hro : pair :: rest = out := by cases hout; rfl
          subst hro
          rcases List.mem_cons.mp hpv with rfl | hmem
          · obtain ⟨hsk, hp⟩ := probeOne_age_some e pv h1
            exact ⟨e, List.mem_cons_self e es, hsk, hp⟩
          · obtain ⟨e2, he2, hsk, hp⟩ := probeMany_age_mem es rest h2 pv hmem
            exact ⟨e2, List.mem_cons_of_mem e he2, hsk, hp⟩

theorem filter_is_file_map (sz : Int) (files : List (String × Int)) :
    (files.map fun q => Entry.file q.1 sz q.2).filter Entry.is_file
      = files.map fun q => Entry.file q.1 sz q.2 :=
  List.filter_eq_self.mpr (by
    intro a ha
    obtain ⟨q, _, rfl⟩ := List.mem_map.mp ha
    rfl)

theorem cleanerSelect_keep_eval (now : Int) (pth td : String) (ro : Option Int) (k : Nat)
    (hk : 0 < k) (ign : List String) (files : List (String × Int)) :
    cleanerSelect now ⟨pth, td, k, ro, ign⟩ (files.map fun q => Entry.file q.1 0 q.2)
      = .ok (applyIgnore ign (pyDictKeys
          (if k < files.length
           then (pySort (fun a b => decide (b.2 ≤ a.2)) files).drop k
           else []))) := by
  have hlen : (pySort (fun a b => decide (b.2 ≤ a.2)) files).length = files.length :=
    (sortAged_perm files).length_eq
  have hstage1 :
      (if td = "f"
       then (files.map fun q => Entry.file q.1 0 q.2).filter Entry.is_file
       else files.map fun q => Entry.file q.1 0 q.2)
        = files.map fun q => Entry.file q.1 0 q.2 := by
    by_cases h : td = "f" <;> simp [h, filter_is_file_map]
  simp only [cleanerSelect, hstage1, hk, if_true, add_stat_age_files, hlen]

theorem cleanerSelect_older_eval (now : Int) (pth td : String) (d : Int)
    (ign : List String) (files : List (String × Int)) :
    cleanerSelect now ⟨pth, td, 0, some d, ign⟩ (files.map fun q => Entry.file q.1 0 q.2)
      = .ok (applyIgnore ign (pyDictKeys
          ((pySort (fun a b => decide (b.2 ≤ a.2)) files).dropWhile
            (fun q => decide (now - d * 86400 ≤ q.2))))) := by
  have hstage1 :
      (if td = "f"
       then (files.map fun q => Entry.file q.1 0 q.2).filter Entry.is_file
       else files.map fun q => Entry.file q.1 0 q.2)
        = files.map fun q => Entry.file q.1 0 q.2 := by
    by_cases h : td = "f" <;> simp [h, filter_is_file_map]
  simp only [cleanerSelect, hstage1, add_stat_age_files, Nat.lt_irrefl, if_false,
    drop_length_takeWhile]

theorem applyIgnore_subset (ign : List String) (files : List String) :
    ∀ p ∈ applyIgnore ign files, p ∈ files :=
  fun _ hp => List.mem_of_mem_filter hp

theorem scanNewContent_mem_message (stored : List (String × List String)) :
    ∀ current : List (String × List String), ∀ k v,
      lookupStored stored k = none → (k, v) ∈ current →
      (k, DiffEntry.message newDirMessage) ∈ scanNewContent stored current
  | [], _, _, _, hmem => absurd hmem (List.not_mem_nil _)
  | kv :: rest, k, v, hk, hmem => by
    rcases List.mem_cons.mp hmem with heq | hmem2
    · rw [scanNewContent, ← heq, hk]
      exact List.mem_cons_self _ _
    · have ih := scanNewContent_mem_message stored rest k v hk hmem2
      rw [scanNewContent]
      cases h : lookupStored stored kv.1 with
      | some prev =>
        by_cases hdiff : (kv.2.filter fun x => ! prev.contains x).isEmpty
        · simp only [h, hdiff, if_true]
          exact ih
        · simp only [h, hdiff, Bool.false_eq_true, if_false]
          exact List.mem_cons_of_mem _ ih
      | none =>
        simp only [h]
        exact List.mem_cons_of_mem _ ih

theorem scanNewContent_no_entries (stored : List (String × List String)) :
    ∀ current : List (String × List String), ∀ k,
      lookupStored stored k = none →
      ∀ l, (k, DiffEntry.entries l) ∉ scanNewContent stored current
  | [], _, _, _, hmem => absurd hmem (List.not_mem_nil _)
  | kv :: rest, k, hk, l, hmem => by
    have ih := scanNewContent_no_entries stored rest k hk l
    rw [scanNewContent] at hmem
    cases h : lookupStored stored kv.1 with
    | some prev =>
      rw [h] at hmem
      by_cases hdiff : (kv.2.filter fun x => ! prev.contains x).isEmpty
      · simp only [hdiff, if_true] at hmem
        exact ih hmem
      · simp only [hdiff, Bool.false_eq_true, if_false] at hmem
        rcases List.mem_cons.mp hmem with heq | hmem2
        · have hfst : kv.1 = k := (Prod.mk.injEq _ _ _ _).mp heq.symm |>.1
          rw [hfst] at h
          rw [h] at hk
          cases hk
        · exact ih hmem2
    | none =>
      rw [h] at hmem
      rcases List.mem_cons.mp hmem with heq | hmem2
      · cases heq
      · exact ih hmem2

/-- C1: the claim says the age probe returns, for a directory, the maximum
modification timestamp among all files inside, truncated to an integer.  In
the code, after the reverse string sort of the find output lines the empty
string from the trailing newline sorts last, not first, so index 1 picks the
second-newest line: for a directory holding files with mtimes 200.5 and 100.5
the probe reports 100, while the maximum truncated timestamp is 200. -/
theorem C1_dir_age_is_not_max :
    add_stat_properties
        [Entry.dir "d" none [⟨200, ['5'], ['a']⟩, ⟨100, ['5'], ['b']⟩]] .age true true
      = .ok [("d", 100)]
    ∧ specDirAge [⟨200, ['5'], ['a']⟩, ⟨100, ['5'], ['b']⟩] = some 200
    ∧ (100 : Int) ≠ 200 := by
  refine ⟨by decide, by decide, by decide⟩

/-- C2: the claim says no directory contents can make the stat probe raise an
uncaught exception.  Vanished entries and du failures are indeed skipped
(first three conjuncts), but a directory containing exactly one file makes
the age probe parse the empty sort element with int, raising an uncaught
ValueError (last conjunct). -/
theorem C2_probe_uncaught_valueerror :
    add_stat_properties [Entry.vanished "gone", Entry.file "f" 3 7] .size true true
      = .ok [("f", 3)]
    ∧ add_stat_properties [Entry.vanished "gone", Entry.file "f" 3 7] .age true true
      = .ok [("f", 7)]
    ∧ add_stat_properties [Entry.dir "d" none [], Entry.file "f" 3 7] .size true true
      = .ok [("f", 3)]
    ∧ add_stat_properties [Entry.dir "d" none [⟨100, ['0'], ['a']⟩]] .age true true
      = .error .valueError := by
  refine ⟨by decide, by decide, by decide, by decide⟩

/-- C3: the claim says the per-target delta is reclaimed = before minus
after.  The code computes item - v, that is after minus before: with a saved
size of 100 and a re-measured size of 30 it reports -70 (and total -70),
while the claimed reclaimed value is 70.  The unavailable case (path q) does
match the claim: a dash entry contributing 0. -/
theorem C3_reclaimed_sign_flipped :
    count_erased_size [("p", 100), ("q", 50)] [Entry.dir "p" (some 30) []]
      = .ok ⟨-70, [("p", some (-70)), ("q", none)]⟩
    ∧ specReclaimed 100 30 = 70
    ∧ ((-70 : Int) ≠ 70) := by
  refine ⟨by decide, by decide, by decide⟩

/-- C4: the claim says the top-N report lists the N largest immediate
children across the union of all watched directories in globally descending
order.  The code concatenates the per-directory descending lists without a
global re-sort and pops the first N of the concatenation: with two watched
directories holding sizes 5, 1 and 10 and N = 2 it reports the entries sized
5 and 1, while the two largest are 10 and 5. -/
theorem C4_topN_not_global :
    scanTopSizes 2 [[Entry.file "a" 5 0, Entry.file "b" 1 0], [Entry.file "c" 10 0]]
      = .ok [("a", 5), ("b", 1)]
    ∧ specTopSizes 2 [("a", 5), ("b", 1), ("c", 10)] = [("c", 10), ("a", 5)]
    ∧ ([("a", (5 : Int)), ("b", 1)] ≠ [("c", (10 : Int)), ("a", 5)]) := by
  refine ⟨by decide, by decide, by decide⟩

/-- C7: the claim (and the ignore field's own comment in the source) says an
ignored entry does not count toward the keepCount survivors.  The code
applies the ignore filter after the keep slicing, so an ignored entry that is
among the keepCount newest occupies a keep slot: with keepCount 1,
ignore A, and candidates A (mtime 300, ignored), B (200), C (100), the code
selects B and C for deletion, while excluding A before the count would keep
B and select only C. -/
theorem C7_ignored_entry_occupies_keep_slot :
    cleanerSelect 0 ⟨"t", "a", 1, none, ["A"]⟩
        [Entry.file "A" 0 300, Entry.file "B" 0 200, Entry.file "C" 0 100]
      = .ok ["B", "C"]
    ∧ specSelectIgnoredFirst 1 ["A"] [("A", 300), ("B", 200), ("C", 100)] = ["C"]
    ∧ (["B", "C"] ≠ ["C"]) := by
  refine ⟨by decide, by decide, by decide⟩

/-- C5: for a cleanup target with positive keepCount and candidate entries
that are plain files with distinct paths and distinct (measurable) ages: if
the candidate count is at most keepCount nothing is selected; otherwise the
selection has exactly count minus keepCount entries, every selected path is a
candidate path, and every selected entry is strictly older than every exempt
entry, so exactly the oldest count minus keepCount are selected and the
keepCount most recently modified are exempt. -/
theorem C5_keep_count_retention (now : Int) (pth td : String) (ro : Option Int) (k : Nat)
    (files : List (String × Int)) (hk : 0 < k)
    (hpaths : (files.map Prod.fst).Nodup) (hages : (files.map Prod.snd).Nodup) :
    (files.length ≤ k →
      cleanerSelect now ⟨pth, td, k, ro, []⟩ (files.map fun q => Entry.file q.1 0 q.2)
        = .ok [])
    ∧ (k < files.length →
      ∃ sel,
        cleanerSelect now ⟨pth, td, k, ro, []⟩ (files.map fun q => Entry.file q.1 0 q.2)
          = .ok sel
        ∧ sel.length = files.length - k
        ∧ (∀ p ∈ sel, ∃ q ∈ files, q.1 = p)
        ∧ (∀ q ∈ files, ∀ q2 ∈ files, q.1 ∈ sel → q2.1 ∉ sel → q.2 < q2.2)) := by
  have heval := cleanerSelect_keep_eval now pth td ro k hk [] files
  constructor
  · intro hle
    rw [heval, if_neg (not_lt.mpr hle)]
    rfl
  · intro hlt
    rw [heval, if_pos hlt]
    have hperm := sortAged_perm files
    have hsort := sortAged_sorted files
    have hndfst : ((pySort (fun a b => decide (b.2 ≤ a.2)) files).map Prod.fst).Nodup :=
      ((hperm.map Prod.fst).nodup_iff).mpr hpaths
    have hnd_drop :
        (((pySort (fun a b => decide (b.2 ≤ a.2)) files).drop k).map Prod.fst).Nodup :=
      List.Nodup.sublist
        ((List.drop_sublist k (pySort (fun a b => decide (b.2 ≤ a.2)) files)).map Prod.fst)
        hndfst
    rw [applyIgnore_nil, pyDictKeys_eq_map_fst _ hnd_drop]
    refine ⟨_, rfl, ?_, ?_, ?_⟩
    · rw [List.length_map, List.length_drop, hperm.length_eq]
    · intro p hp
      obtain ⟨u, hu, rfl⟩ := List.mem_map.mp hp
      exact ⟨u, hperm.mem_iff.mp (List.mem_of_mem_drop hu), rfl⟩
    · intro q hq q2 hq2 hqsel hq2sel
      obtain ⟨u, hu, hufst⟩ := List.mem_map.mp hqsel
      have huf : u ∈ files := hperm.mem_iff.mp (List.mem_of_mem_drop hu)
      have huq : u = q := List.inj_on_of_nodup_map hpaths huf hq hufst
      rw [huq] at hu
      have hq2sorted : q2 ∈ pySort (fun a b => decide (b.2 ≤ a.2)) files :=
        hperm.mem_iff.mpr hq2
      have hq2split :
          q2 ∈ (pySort (fun a b => decide (b.2 ≤ a.2)) files).take k
            ++ (pySort (fun a b => decide (b.2 ≤ a.2)) files).drop k := by
        rw [List.take_append_drop]
        exact hq2sorted
      have hq2take : q2 ∈ (pySort (fun a b => decide (b.2 ≤ a.2)) files).take k := by
        rcases List.mem_append.mp hq2split with h | h
        · exact h
        · exact absurd (List.mem_map_of_mem Prod.fst h) hq2sel
      have hpw :
          List.Pairwise ageDesc
            ((pySort (fun a b => decide (b.2 ≤ a.2)) files).take k
              ++ (pySort (fun a b => decide (b.2 ≤ a.2)) files).drop k) := by
        rw [List.take_append_drop]
        exact hsort
      have hle2 : ageDesc q2 q := (List.pairwise_append.mp hpw).2.2 q2 hq2take q hu
      have hne : q.2 ≠ q2.2 := by
        intro he
        have hqq : q = q2 := List.inj_on_of_nodup_map hages hq hq2 he
        rw [hqq] at hqsel
        exact hq2sel hqsel
      exact lt_of_le_of_ne hle2 hne

/-- Witness for C5: keepCount 2 and five file candidates with distinct ages;
the theorem applies and yields a selection of exactly three entries, each a
candidate, each strictly older than both exempt entries. -/
theorem C5_keep_count_retention_witness :
    ∃ sel,
      cleanerSelect 0 ⟨"t", "a", 2, none, []⟩
          ([("a", (50 : Int)), ("b", 40), ("c", 30), ("d", 20), ("e", 10)].map
            fun q => Entry.file q.1 0 q.2)
        = .ok sel
      ∧ sel.length = [("a", (50 : Int)), ("b", 40), ("c", 30), ("d", 20), ("e", 10)].length - 2
      ∧ (∀ p ∈ sel, ∃ q ∈ [("a", (50 : Int)), ("b", 40), ("c", 30), ("d", 20), ("e", 10)],
          q.1 = p)
      ∧ (∀ q ∈ [("a", (50 : Int)), ("b", 40), ("c", 30), ("d", 20), ("e", 10)],
         ∀ q2 ∈ [("a", (50 : Int)), ("b", 40), ("c", 30), ("d", 20), ("e", 10)],
          q.1 ∈ sel → q2.1 ∉ sel → q.2 < q2.2) :=
  (C5_keep_count_retention 0 "t" "a" none 2
      [("a", (50 : Int)), ("b", 40), ("c", 30), ("d", 20), ("e", 10)]
      (by decide) (by decide) (by decide)).2 (by decide)

/-- C6: for a cleanup target with keepCount 0 and maxAgeDays set, over file
candidates with distinct paths: the selection equals the age-descending
sorted candidates with the prefix of entries at or newer than the cutoff
now minus maxAgeDays times 86400 walked past (a single dropWhile at the
first strictly older entry), every candidate at or newer than the cutoff
(including exactly at it) is exempt, and every candidate strictly older than
the cutoff is selected. -/
theorem C6_age_threshold_retention (now : Int) (pth td : String) (d : Int)
    (files : List (String × Int)) (hpaths : (files.map Prod.fst).Nodup) :
    ∃ sel,
      cleanerSelect now ⟨pth, td, 0, some d, []⟩ (files.map fun q => Entry.file q.1 0 q.2)
        = .ok sel
      ∧ sel = ((pySort (fun a b => decide (b.2 ≤ a.2)) files).dropWhile
          (fun q => decide (now - d * 86400 ≤ q.2))).map Prod.fst
      ∧ (∀ q ∈ files, now - d * 86400 ≤ q.2 → q.1 ∉ sel)
      ∧ (∀ q ∈ files, q.2 < now - d * 86400 → q.1 ∈ sel) := by
  have heval := cleanerSelect_older_eval now pth td d [] files
  have hperm := sortAged_perm files
  have hsort := sortAged_sorted files
  have hndfst : ((pySort (fun a b => decide (b.2 ≤ a.2)) files).map Prod.fst).Nodup :=
    ((hperm.map Prod.fst).nodup_iff).mpr hpaths
  have hnd_dw :
      (((pySort (fun a b => decide (b.2 ≤ a.2)) files).dropWhile
        (fun q => decide (now - d * 86400 ≤ q.2))).map Prod.fst).Nodup :=
    List.Nodup.sublist
      ((List.dropWhile_sublist (fun q => decide (now - d * 86400 ≤ q.2))).map Prod.fst)
      hndfst
  rw [heval, applyIgnore_nil, pyDictKeys_eq_map_fst _ hnd_dw]
  refine ⟨_, rfl, rfl, ?_, ?_⟩
  · intro q hq hthr hqsel
    obtain ⟨u, hu, hufst⟩ := List.mem_map.mp hqsel
    have huf : u ∈ files :=
      hperm.mem_iff.mp
        ((List.dropWhile_sublist (fun q => decide (now - d * 86400 ≤ q.2))).subset hu)
    have huq : u = q := List.inj_on_of_nodup_map hpaths huf hq hufst
    rw [huq] at hu
    have hlt := sorted_dropWhile_lt (now - d * 86400)
      (pySort (fun a b => decide (b.2 ≤ a.2)) files) hsort q hu
    exact absurd hthr (not_le.mpr hlt)
  · intro q hq hlt
    have hqsorted : q ∈ pySort (fun a b => decide (b.2 ≤ a.2)) files :=
      hperm.mem_iff.mpr hq
    have hsplit :
        q ∈ (pySort (fun a b => decide (b.2 ≤ a.2)) files).takeWhile
            (fun q => decide (now - d * 86400 ≤ q.2))
          ++ (pySort (fun a b => decide (b.2 ≤ a.2)) files).dropWhile
            (fun q => decide (now - d * 86400 ≤ q.2)) := by
      rw [List.takeWhile_append_dropWhile]
      exact hqsorted
    rcases List.mem_append.mp hsplit with h | h
    · have hp := List.mem_takeWhile_imp h
      simp only [decide_eq_true_eq] at hp
      exact absurd hp (not_le.mpr hlt)
    · exact List.mem_map_of_mem Prod.fst h

/-- Witness for C6: the example of the claim, with now at day 100 and file
candidates aged 5, 10, 31 and 40 days: the theorem applies; the entries aged
31 and 40 days are selected, those aged 5 and 10 days are exempt. -/
theorem C6_age_threshold_retention_witness :
    ∃ sel,
      cleanerSelect 8640000 ⟨"t", "a", 0, some 30, []⟩
          ([("e5", (8208000 : Int)), ("e10", 7776000), ("e31", 5961600), ("e40", 5184000)].map
            fun q => Entry.file q.1 0 q.2)
        = .ok sel
      ∧ sel = ((pySort (fun a b => decide (b.2 ≤ a.2))
            [("e5", (8208000 : Int)), ("e10", 7776000), ("e31", 5961600), ("e40", 5184000)]).dropWhile
          (fun q => decide ((8640000 : Int) - 30 * 86400 ≤ q.2))).map Prod.fst
      ∧ (∀ q ∈ [("e5", (8208000 : Int)), ("e10", 7776000), ("e31", 5961600), ("e40", 5184000)],
          (8640000 : Int) - 30 * 86400 ≤ q.2 → q.1 ∉ sel)
      ∧ (∀ q ∈ [("e5", (8208000 : Int)), ("e10", 7776000), ("e31", 5961600), ("e40", 5184000)],
          q.2 < (8640000 : Int) - 30 * 86400 → q.1 ∈ sel) :=
  C6_age_threshold_retention 8640000 "t" "a" 30
    [("e5", (8208000 : Int)), ("e10", 7776000), ("e31", 5961600), ("e40", 5184000)]
    (by decide)

/-- C8: the throttle of cleaner: when the timer file exists, holds an
all-digit string, and its value is greater than 1, the counter is decremented
and persisted and the run returns early (no measurement, deletion or clean
report); in every other case (missing file, non-digit content, value at most
1) the counter is reset to the configured interval and cleaning proceeds.
Starting from no counter file with interval 14, the first fifteen consecutive
calls clean exactly on call 1 and call 15. -/
theorem C8_throttle_counter (interval : Nat) (s : String) :
    (pyIsDigitStr s = true → 1 < pyStrToNat s →
      cleanerThrottle interval (some s) = (natToStr (pyStrToNat s - 1), false))
    ∧ (pyIsDigitStr s = true → ¬ 1 < pyStrToNat s →
      cleanerThrottle interval (some s) = (natToStr interval, true))
    ∧ (pyIsDigitStr s = false →
      cleanerThrottle interval (some s) = (natToStr interval, true))
    ∧ cleanerThrottle interval none = (natToStr interval, true)
    ∧ cleanerRuns 14 15 none
        = [true, false, false, false, false, false, false, false, false, false, false,
           false, false, false, true] := by
  refine ⟨?_, ?_, ?_, rfl, by decide⟩
  · intro h1 h2
    simp [cleanerThrottle, h1, h2]
  · intro h1 h2
    simp [cleanerThrottle, h1, h2]
  · intro h1
    simp [cleanerThrottle, h1]

/-- Witness for C8: a persisted counter of 5 is a digit string greater than
1, so the call decrements it to 4 and does not clean. -/
theorem C8_throttle_counter_witness :
    pyIsDigitStr "5" = true ∧ 1 < pyStrToNat "5"
    ∧ cleanerThrottle 14 (some "5") = (natToStr 4, false) :=
  ⟨by decide, by decide, (C8_throttle_counter 14 "5").1 (by decide) (by decide)⟩

/-- C9 counterexample: the claim says a watched directory absent from the
snapshot has all of its current entries listed as new.  With stored snapshot
holding only key A and current listing B with entries p and q, scan records
for B only the fixed new-directory message, not the entry list. -/
theorem C9_counterexample_no_entry_list :
    scanNewContent [("A", ["x"])] [("B", ["p", "q"])]
      = [("B", DiffEntry.message newDirMessage)]
    ∧ [("B", DiffEntry.message newDirMessage)] ≠ [("B", DiffEntry.entries ["p", "q"])] := by
  refine ⟨by decide, by decide⟩

/-- C9 as amended: a watched directory whose key is absent from the stored
snapshot is reported with the distinct fixed new-directory message (a
different shape from an ordinary diff), and no entry list is ever reported
for that key; its current entries are not listed. -/
theorem C9_new_directory_distinct_message (stored : List (String × List String))
    (current : List (String × List String)) (k : String) (v : List String)
    (hk : lookupStored stored k = none) (hmem : (k, v) ∈ current) :
    (k, DiffEntry.message newDirMessage) ∈ scanNewContent stored current
    ∧ (∀ l, (k, DiffEntry.entries l) ∉ scanNewContent stored current)
    ∧ (∀ l, DiffEntry.message newDirMessage ≠ DiffEntry.entries l) :=
  ⟨scanNewContent_mem_message stored current k v hk hmem,
   fun l => scanNewContent_no_entries stored current k hk l,
   fun _ h => by cases h⟩

/-- Witness for C9 as amended: with stored snapshot holding only key A and a
current watch listing B with entries p and q, the theorem applies: B is
reported with the message and no entry list. -/
theorem C9_new_directory_distinct_message_witness :
    ("B", DiffEntry.message newDirMessage)
        ∈ scanNewContent [("A", ["x"])] [("B", ["p", "q"])]
    ∧ (∀ l, ("B", DiffEntry.entries l) ∉ scanNewContent [("A", ["x"])] [("B", ["p", "q"])])
    ∧ (∀ l, DiffEntry.message newDirMessage ≠ DiffEntry.entries l) :=
  C9_new_directory_distinct_message [("A", ["x"])] [("B", ["p", "q"])] "B" ["p", "q"]
    (by decide) (by decide)

theorem filter_is_file_comm (cands : List Entry) :
    (cands.filter fun e => ! ageSkipped e).filter Entry.is_file
      = (cands.filter Entry.is_file).filter fun e => ! ageSkipped e := by
  simp only [List.filter_filter]
  congr 1
  funext a
  exact Bool.and_comm _ _

theorem add_stat_age_filter_skipped (entries : List Entry) (sort rev : Bool) :
    add_stat_properties entries .age sort rev
      = add_stat_properties (entries.filter fun e => ! ageSkipped e) .age sort rev := by
  unfold add_stat_properties
  rw [← probeMany_age_filter_skipped]

theorem cleanerSelect_sel_from_probe (item : One_path_item) (cands : List Entry)
    (aged : List (String × Int)) (n : Nat)
    (hadd : add_stat_properties
        (if item.type_to_del = "f" then cands.filter Entry.is_file else cands) .age true true
      = .ok aged) :
    ∀ p ∈ applyIgnore item.ignore (pyDictKeys (aged.drop n)),
      ∃ e ∈ cands, ageSkipped e = false ∧ Entry.path e = p := by
  intro p hp
  have hp1 := applyIgnore_subset _ _ p hp
  have hp2 := mem_pyDictKeysAux [] _ p hp1
  obtain ⟨u, hu, hufst⟩ := List.mem_map.mp hp2
  have hu2 : u ∈ aged := List.mem_of_mem_drop hu
  cases hpm : probeMany .age
      (if item.type_to_del = "f" then cands.filter Entry.is_file else cands) with
  | error err =>
    have hcontra : (Except.error err : Except PyErr (List (String × Int))) = .ok aged := by
      rw [← hadd]
      unfold add_stat_properties
      rw [hpm]
    cases hcontra
  | ok out =>
    have haged : (Except.ok (pySort (fun a b => decide (b.2 ≤ a.2)) out)
        : Except PyErr (List (String × Int))) = .ok aged := by
      rw [← hadd]
      unfold add_stat_properties
      rw [hpm]
      rfl
    cases haged
    have hu3 : u ∈ out := (sortAged_perm out).mem_iff.mp hu2
    obtain ⟨e, he, hsk, hpath⟩ := probeMany_age_mem _ out hpm u hu3
    refine ⟨e, ?_, hsk, hpath.trans hufst⟩
    by_cases htd : item.type_to_del = "f"
    · rw [if_pos htd] at he
      exact List.mem_of_mem_filter he
    · rw [if_neg htd] at he
      exact he

/-- C10: under a keepCount or maxAgeDays policy, candidates whose age the
probe silently skips (vanished entries, directories containing no files) are
dropped from the ranked candidate list before selection: the selection over
the full candidate list equals the selection over the measurable candidates
only (so skipped entries neither get selected nor occupy keepCount slots),
and every selected path comes from a non-skipped candidate.  Under full
cleaning (neither policy set, files-and-dirs type, no ignore patterns) every
candidate, skipped or not, is selected. -/
theorem C10_unmeasurable_dropped (now : Int) (item : One_path_item) (cands : List Entry) :
    ((0 < item.num_to_keep ∨ item.remove_older ≠ none) →
      cleanerSelect now item cands
        = cleanerSelect now item (cands.filter fun e => ! ageSkipped e))
    ∧ ((0 < item.num_to_keep ∨ item.remove_older ≠ none) →
      ∀ sel, cleanerSelect now item cands = .ok sel →
        ∀ p ∈ sel, ∃ e ∈ cands, ageSkipped e = false ∧ Entry.path e = p)
    ∧ (item.type_to_del ≠ "f" → item.num_to_keep = 0 → item.remove_older = none →
       item.ignore = [] →
      cleanerSelect now item cands = .ok (cands.map Entry.path)) := by
  have hstage :
      add_stat_properties
          (if item.type_to_del = "f" then cands.filter Entry.is_file else cands) .age true true
        = add_stat_properties
          (if item.type_to_del = "f"
           then (cands.filter fun e => ! ageSkipped e).filter Entry.is_file
           else cands.filter fun e => ! ageSkipped e) .age true true := by
    by_cases htd : item.type_to_del = "f"
    · rw [if_pos htd, if_pos htd, filter_is_file_comm]
      exact add_stat_age_filter_skipped (cands.filter Entry.is_file) true true
    · rw [if_neg htd, if_neg htd]
      exact add_stat_age_filter_skipped cands true true
  refine ⟨?_, ?_, ?_⟩
  · intro hpol
    rcases Nat.eq_zero_or_pos item.num_to_keep with hz | hp
    · have hro : ∃ dd, item.remove_older = some dd := by
        rcases hpol with h | h
        · rw [hz] at h
          exact absurd h (Nat.lt_irrefl 0)
        · cases hx : item.remove_older with
          | none => exact absurd hx h
          | some dd => exact ⟨dd, rfl⟩
      obtain ⟨dd, hdd⟩ := hro
      simp only [cleanerSelect, hz, Nat.lt_irrefl, if_false, hdd]
      rw [hstage]
    · simp only [cleanerSelect, hp, if_true]
      rw [hstage]
  · intro hpol sel hsel p hp
    rcases Nat.eq_zero_or_pos item.num_to_keep with hz | hpk
    · have hro : ∃ dd, item.remove_older = some dd := by
        rcases hpol with h | h
        · rw [hz] at h
          exact absurd h (Nat.lt_irrefl 0)
        · cases hx : item.remove_older with
          | none => exact absurd hx h
          | some dd => exact ⟨dd, rfl⟩
      obtain ⟨dd, hdd⟩ := hro
      simp only [cleanerSelect, hz, Nat.lt_irrefl, if_false, hdd] at hsel
      cases hadd : add_stat_properties
          (if item.type_to_del = "f" then cands.filter Entry.is_file else cands)
          .age true true with
      | error err =>
        rw [hadd] at hsel
        cases hsel
      | ok aged =>
        rw [hadd] at hsel
        cases hsel
        exact cleanerSelect_sel_from_probe item cands aged _ hadd p hp
    · simp only [cleanerSelect, hpk, if_true] at hsel
      cases hadd : add_stat_properties
          (if item.type_to_del = "f" then cands.filter Entry.is_file else cands)
          .age true true with
      | error err =>
        rw [hadd] at hsel
        cases hsel
      | ok aged =>
        rw [hadd] at hsel
        have hsel2 : Except.ok (ε := PyErr) (applyIgnore item.ignore (pyDictKeys
            (if item.num_to_keep < aged.length then aged.drop item.num_to_keep else [])))
            = .ok sel := hsel
        by_cases hkl : item.num_to_keep < aged.length
        · rw [if_pos hkl] at hsel2
          cases hsel2
          exact cleanerSelect_sel_from_probe item cands aged item.num_to_keep hadd p hp
        · rw [if_neg hkl] at hsel2
          have hnil : applyIgnore item.ignore (pyDictKeys []) = [] := rfl
          rw [hnil] at hsel2
          cases hsel2
          exact absurd hp (List.not_mem_nil p)
  · intro htd hz hro hig
    simp only [cleanerSelect, if_neg htd, hz, Nat.lt_irrefl, if_false, hro, hig, if_true]

/-- Witness for C10: with keepCount 1, a file, a vanished entry and an empty
directory as candidates, selection over all candidates equals selection over
the file alone; with no policy set the same candidates are all selected,
skipped or not. -/
theorem C10_unmeasurable_dropped_witness :
    cleanerSelect 0 ⟨"t", "a", 1, none, []⟩
        [Entry.file "x" 0 5, Entry.vanished "g", Entry.dir "ed" none []]
      = cleanerSelect 0 ⟨"t", "a", 1, none, []⟩
        ([Entry.file "x" 0 5, Entry.vanished "g", Entry.dir "ed" none []].filter
          fun e => ! ageSkipped e)
    ∧ cleanerSelect 0 ⟨"t2", "a", 0, none, []⟩
        [Entry.file "x" 0 5, Entry.vanished "g", Entry.dir "ed" none []]
      = .ok ["x", "g", "ed"] := by
  constructor
  · exact (C10_unmeasurable_dropped 0 ⟨"t", "a", 1, none, []⟩
      [Entry.file "x" 0 5, Entry.vanished "g", Entry.dir "ed" none []]).1 (Or.inl (by decide))
  · exact (C10_unmeasurable_dropped 0 ⟨"t2", "a", 0, none, []⟩
      [Entry.file "x" 0 5, Entry.vanished "g", Entry.dir "ed" none []]).2.2
      (by decide) rfl rfl rfl

end Crapremoval
